import Mathlib

/-!
Verification development for the map-event synchronization script
(src/scripts/update-map-events.js).  The three pure functions of the
script (buildSchedule, mergeEventLocalizations, slugify) are embedded
as executable Lean definitions over a small model of JavaScript values,
and the behavioural claims about them are proved below.
-/

set_option maxRecDepth 4000

/-- Model of a finite-decimal JavaScript number: sign, integer part and
the list of decimal fraction digits.  Canonical values carry no trailing
zero fraction digit (mirroring the shortest decimal form printed by
Number.prototype.toString). -/
structure JSNum where
  neg : Bool
  ip : Nat
  frac : List (Fin 10)
deriving DecidableEq

/-- Model of the JavaScript values that can occur in the JSON data the
script manipulates (plus undefined, the result of a missed lookup). -/
inductive JSValue where
  | vundefined : JSValue
  | vnull : JSValue
  | vbool : Bool → JSValue
  | vnum : JSNum → JSValue
  | vstr : String → JSValue
  | vobj : List (String × JSValue) → JSValue

/-- Decimal digit to character. -/
def digitChar (d : Fin 10) : Char := Char.ofNat (48 + d.val)

/-- Number.prototype.toString for the modelled finite-decimal numbers
(negative zero prints without a sign, as in JavaScript). -/
def JSNum.toStr (n : JSNum) : String :=
  (if n.neg && !(n.ip == 0 && n.frac.isEmpty) then "-" else "")
    ++ Nat.repr n.ip
    ++ (if n.frac.isEmpty then "" else "." ++ String.mk (n.frac.map digitChar))

/-- An integer-valued number has no fraction digits. -/
def JSNum.isInt (n : JSNum) : Bool := n.frac.isEmpty

/-- JavaScript truthiness: undefined, null, false, zero and the empty
string are falsy; every object is truthy. -/
def truthy : JSValue → Bool
  | JSValue.vundefined => false
  | JSValue.vnull => false
  | JSValue.vbool b => b
  | JSValue.vnum n => !(n.ip == 0 && n.frac.isEmpty)
  | JSValue.vstr s => !(s == "")
  | JSValue.vobj _ => true

/-- The test `typeof v === "number"` used on the hour field. -/
def typeofNumber : JSValue → Bool
  | JSValue.vnum _ => true
  | _ => false

/-- Whether a value is an integer (a number with no fractional part). -/
def isIntegerValue : JSValue → Bool
  | JSValue.vnum n => n.frac.isEmpty
  | _ => false

/-- The String() coercion applied by the script to non-string values. -/
def jsToString : JSValue → String
  | JSValue.vundefined => "undefined"
  | JSValue.vnull => "null"
  | JSValue.vbool b => if b then "true" else "false"
  | JSValue.vnum n => n.toStr
  | JSValue.vstr s => s
  | JSValue.vobj _ => "[object Object]"

/-- Property read `obj[key]` on a JSON object restricted to own entries;
a missing key yields undefined.  This is used only at the reads where the
prototype chain of a JSON-parsed object contributes nothing: `entry.hour`
("hour" is not an Object.prototype member, see objectProtoNames) and the
merge's `remoteEventTypes?.[slug]` (an inherited Object.prototype member
has no `localizations` property, so a chain read still yields no
structured localizations there).  The truthiness checks of buildSchedule,
where the chain is observable, use truthyProp and readMapId below. -/
def lookupField (obj : List (String × JSValue)) (key : String) : JSValue :=
  match obj.lookup key with
  | some v => v
  | none => JSValue.vundefined

/-- The own property names of Object.prototype in Node.  A plain object
built by an object literal or by JSON.parse inherits from
Object.prototype, so reading any of these names on it yields a truthy
value (a built-in function, or the prototype object for the __proto__
accessor) whenever no own key shadows them. -/
def objectProtoNames : List String :=
  ["constructor", "hasOwnProperty", "isPrototypeOf", "propertyIsEnumerable",
   "toLocaleString", "toString", "valueOf",
   "__defineGetter__", "__defineSetter__", "__lookupGetter__", "__lookupSetter__",
   "__proto__"]

/-- Truthiness of the property read `obj[key]` on a plain JSON object,
prototype chain included: an own entry shadows the prototype; otherwise
the read is truthy exactly when the key names an Object.prototype
member. -/
def truthyProp (obj : List (String × JSValue)) (key : String) : Bool :=
  match obj.lookup key with
  | some v => truthy v
  | none => decide (key ∈ objectProtoNames)

/-- The result of reading `prefixToMapId[pfx]`, prototype chain included:
an own entry of the fixed table (a map identifier string), an inherited
Object.prototype member (a truthy built-in function), or undefined. -/
inductive TableRead where
  | own : String → TableRead
  | inherited : String → TableRead
  | missing : TableRead

/-- Optional-chaining member access `v?.[key]` / `v?.key`: only objects
carry the modelled properties, everything else yields undefined. -/
def jsGet : JSValue → String → JSValue
  | JSValue.vobj fields, key => lookupField fields key
  | _, _ => JSValue.vundefined

/-- Property assignment `obj[k] = v` on a JSON object: overwrite the
existing entry in place, or append a new one. -/
def setAssoc {α : Type} : List (String × α) → String → α → List (String × α)
  | [], k, v => [(k, v)]
  | (k', v') :: rest, k, v =>
    if k' == k then (k', v) :: rest else (k', v') :: setAssoc rest k v

/-- Object spread `{...v}`: the own enumerable properties of v.  Spreading
a string yields its indexed one-character properties; spreading any other
primitive yields nothing. -/
def spreadInto : JSValue → List (String × JSValue)
  | JSValue.vobj fields => fields
  | JSValue.vstr s =>
      (s.data.enum).map (fun p => (Nat.repr p.1, JSValue.vstr (String.singleton p.2)))
  | _ => []

/-- ASCII whitespace trimmed by String.prototype.trim. -/
def isJsSpace (c : Char) : Bool :=
  c == ' ' || c == '\t' || c == '\n' || c == '\r' || c.toNat == 11 || c.toNat == 12

/-- String.prototype.trim. -/
def jsTrim (s : String) : String :=
  String.mk (((s.data.dropWhile isJsSpace).reverse.dropWhile isJsSpace).reverse)

/-- ASCII lowercasing of one character, as done by toLowerCase on the
ASCII range the script's data uses. -/
def lowerChar (c : Char) : Char :=
  if 65 ≤ c.toNat ∧ c.toNat ≤ 90 then Char.ofNat (c.toNat + 32) else c

/-- String.prototype.toLowerCase (on the ASCII range). -/
def jsToLower (s : String) : String := String.mk (s.data.map lowerChar)

/-- Membership in the character class [a-z0-9] of the slug regexes. -/
def isSlugChar (c : Char) : Bool :=
  decide (97 ≤ c.toNat ∧ c.toNat ≤ 122) || decide (48 ≤ c.toNat ∧ c.toNat ≤ 57)

/-- The quote characters removed by slugify (single and double quote). -/
def isQuoteChar (c : Char) : Bool := c.toNat == 39 || c.toNat == 34

/-- One pass of `.replace(/[^a-z0-9]+/g, "-")`: every maximal run of
characters outside [a-z0-9] becomes a single hyphen.  The Boolean records
whether we are inside such a run. -/
def collapseRuns : Bool → List Char → List Char
  | _, [] => []
  | inRun, c :: cs =>
    if isSlugChar c then c :: collapseRuns false cs
    else if inRun then collapseRuns true cs
    else '-' :: collapseRuns true cs

/-- Removal of the trailing hyphen run (the `-+$` half of the final
replace of slugify). -/
def dropTrailingHyphens : List Char → List Char
  | [] => []
  | c :: cs =>
    match dropTrailingHyphens cs with
    | [] => if c = '-' then [] else [c]
    | d :: r => c :: d :: r

/-- The slugify pipeline on character lists: lowercase, drop quotes,
collapse non-alphanumeric runs to single hyphens, strip leading and
trailing hyphens. -/
def slugCore (l : List Char) : List Char :=
  dropTrailingHyphens
    ((collapseRuns false ((l.map lowerChar).filter (fun c => !isQuoteChar c))).dropWhile
      (fun c => c == '-'))

/-- The identifier normalizer slugify of the script. -/
def slugify (name : String) : String := String.mk (slugCore name.data)

/-- No two adjacent hyphens occur in the list. -/
def noDoubleHyphen : List Char → Bool
  | c :: d :: cs => !(c == '-' && d == '-') && noDoubleHyphen (d :: cs)
  | _ => true

/-- The shape of a well-formed slug tail: only [a-z0-9] characters and
hyphens, and every hyphen is immediately followed by an [a-z0-9]
character (hence no trailing hyphen and no hyphen run). -/
def slugTail : List Char → Bool
  | [] => true
  | c :: cs =>
    if isSlugChar c then slugTail cs
    else if c == '-' then
      match cs with
      | [] => false
      | d :: _ => isSlugChar d && slugTail cs
    else false

/-- The list does not start with a hyphen. -/
def headNotHyphen : List Char → Bool
  | [] => true
  | c :: _ => !(c == '-')

/-- A rotation entry: a JSON object, i.e. an insertion-ordered list of
string-keyed fields. -/
abbrev Entry := List (String × JSValue)

/-- The local event-type catalog: identifier to definition. -/
abbrev Catalog := List (String × JSValue)

/-- One tier bucket: hour string to event slug. -/
abbrev HourMap := List (String × String)

/-- The per-location buckets: tier name to hour map. -/
abbrev Buckets := List (String × HourMap)

/-- The schedule: location identifier to buckets. -/
abbrev Schedule := List (String × Buckets)

/-- The fixed prefixToMapId table of the script. -/
def prefixToMapId : List (String × String) :=
  [("dam", "dam-battleground"),
   ("buriedCity", "buried-city"),
   ("spaceport", "the-spaceport"),
   ("blueGate", "blue-gate"),
   ("stellaMontis", "stella-montis")]

/-- The seeded schedule: every map of the fixed table with empty
major/minor buckets. -/
def initialSchedule : Schedule :=
  prefixToMapId.map (fun p => (p.2, [("major", ([] : HourMap)), ("minor", ([] : HourMap))]))

/-- The match of `/^([a-zA-Z]+)(Minor|Major)$/` against a field name.
Since the second group has fixed length five and the pattern is anchored,
the key matches exactly when its last five characters are "Minor" or
"Major" and the (nonempty) remainder is alphabetic; the captures are that
remainder and that suffix. -/
def matchLocField (key : String) : Option (String × String) :=
  let cs := key.toList
  let pre := cs.take (cs.length - 5)
  let suf := cs.drop (cs.length - 5)
  if (suf = "Minor".toList ∨ suf = "Major".toList) ∧ pre ≠ [] ∧ (∀ c ∈ pre, c.isAlpha) then
    some (String.mk pre, String.mk suf)
  else none

/-- The value coercion applied to a rotation field: strings are trimmed,
any other value is String(v || ""). -/
def eventNameOf : JSValue → String
  | JSValue.vstr s => jsTrim s
  | v => if truthy v then jsToString v else ""

/-- The read `prefixToMapId[prefix]` of buildSchedule.  The table is an
object literal, so it inherits from Object.prototype: a prefix absent
from the table but naming a prototype member (e.g. "toString") reads as
that truthy inherited function rather than undefined. -/
def readMapId (pfx : String) : TableRead :=
  match prefixToMapId.lookup pfx with
  | some v => TableRead.own v
  | none =>
    if pfx ∈ objectProtoNames then TableRead.inherited pfx else TableRead.missing

/-- The fatal errors thrown by buildSchedule: the two contract violations
of the script, plus the TypeError raised when the schedule is indexed by
an inherited (function-valued) map id — reading `schedule[mapId]` then
keys the schedule by the function's source text, which is neither a
seeded map identifier nor an Object.prototype member, so it yields
undefined and the subsequent tier read throws.  The string records the
tier whose read fails. -/
inductive BuildError where
  | unexpectedPrefix : String → BuildError
  | missingEventType : String → String → BuildError
  | typeErrorUndefined : String → BuildError
deriving DecidableEq

/-- `schedule[mapId][tier][hourStr] = slug`. -/
def updateTier (b : Buckets) (tier hourStr slug : String) : Buckets :=
  b.map (fun t => (t.1, if t.1 == tier then setAssoc t.2 hourStr slug else t.2))

/-- The slot assignment of buildSchedule on the whole schedule. -/
def setSlot (sched : Schedule) (mapId tier hourStr slug : String) : Schedule :=
  sched.map (fun q => (q.1, if q.1 == mapId then updateTier q.2 tier hourStr slug else q.2))

/-- The body of the inner field loop of buildSchedule.  The two
truthiness checks (`!mapId` and `!eventTypes[slug]`) see the prototype
chain.  When the map id read is an inherited function, the value and
catalog checks still run first; if both pass, evaluating
`schedule[mapId][tier]` throws the TypeError modelled by
typeErrorUndefined. -/
def processField (eventTypes : Catalog) (sched : Schedule) (hourStr key : String)
    (rawName : JSValue) : Except BuildError Schedule :=
  if key == "hour" then Except.ok sched
  else
    match matchLocField key with
    | none => Except.ok sched
    | some (pfx, tierRaw) =>
      match readMapId pfx with
      | TableRead.missing => Except.error (BuildError.unexpectedPrefix pfx)
      | TableRead.own mapId =>
        let tier := jsToLower tierRaw
        let eventName := eventNameOf rawName
        if eventName == "" || jsToLower eventName == "none" then Except.ok sched
        else
          let slug := slugify eventName
          if truthyProp eventTypes slug then
            Except.ok (setSlot sched mapId tier hourStr slug)
          else Except.error (BuildError.missingEventType eventName slug)
      | TableRead.inherited _ =>
        let tier := jsToLower tierRaw
        let eventName := eventNameOf rawName
        if eventName == "" || jsToLower eventName == "none" then Except.ok sched
        else
          let slug := slugify eventName
          if truthyProp eventTypes slug then
            Except.error (BuildError.typeErrorUndefined tier)
          else Except.error (BuildError.missingEventType eventName slug)

/-- The body of the outer entry loop of buildSchedule: entries without a
number-typed hour are skipped, otherwise every field is processed with
the hour rendered by toString. -/
def processEntry (eventTypes : Catalog) (sched : Schedule) (entry : Entry) :
    Except BuildError Schedule :=
  match lookupField entry "hour" with
  | JSValue.vnum n =>
      entry.foldlM (fun s p => processField eventTypes s n.toStr p.1 p.2) sched
  | _ => Except.ok sched

/-- buildSchedule of the script: seed all known maps, then fold the
rotation entries; any thrown error aborts the whole computation. -/
def buildSchedule (fullRotation : List Entry) (eventTypes : Catalog) :
    Except BuildError Schedule :=
  fullRotation.foldlM (fun s e => processEntry eventTypes s e) initialSchedule

/-- The remote localizations blob for one slug:
`remoteEventTypes?.[slug]?.localizations`. -/
def localizationsOf (remote : List (String × JSValue)) (slug : String) : JSValue :=
  jsGet (lookupField remote slug) "localizations"

/-- One iteration of the mergeEventLocalizations loop: if the remote
localizations value is a (truthy) object, replace the entry with
`{...config, localizations}`. -/
def mergeStep (remote : List (String × JSValue)) (next : List (String × JSValue))
    (p : String × JSValue) : List (String × JSValue) :=
  match localizationsOf remote p.1 with
  | JSValue.vobj loc =>
      setAssoc next p.1
        (JSValue.vobj (setAssoc (spreadInto p.2) "localizations" (JSValue.vobj loc)))
  | _ => next

/-- mergeEventLocalizations of the script: start from a copy of the local
catalog and fold its own entries. -/
def mergeEventLocalizations (eventTypes remoteEventTypes : List (String × JSValue)) :
    List (String × JSValue) :=
  eventTypes.foldl (mergeStep remoteEventTypes) eventTypes

/-- Read one schedule slot. -/
def slotOf (sched : Schedule) (loc tier hourStr : String) : Option String :=
  match sched.lookup loc with
  | some b =>
    match b.lookup tier with
    | some m => m.lookup hourStr
    | none => none
  | none => none

/-- The structural invariant of a schedule: its keys are exactly the map
identifiers of the fixed table, in order, and every entry carries both a
"major" and a "minor" bucket. -/
def schedInv (s : Schedule) : Prop :=
  s.map Prod.fst = prefixToMapId.map Prod.snd ∧
  ∀ p ∈ s, (p.2.lookup "major").isSome ∧ (p.2.lookup "minor").isSome

/-! ## Generic lemmas about association lists and Except folds -/

theorem foldlM_nil_except {α β ε : Type} (f : β → α → Except ε β) (b : β) :
    List.foldlM f b [] = Except.ok b := rfl

theorem foldlM_cons_except {α β ε : Type} (f : β → α → Except ε β) (b : β) (a : α)
    (l : List α) :
    List.foldlM f b (a :: l) = Except.bind (f b a) (fun b' => List.foldlM f b' l) := rfl

theorem except_foldlM_inv {α β ε : Type} {P : β → Prop} {f : β → α → Except ε β}
    (hf : ∀ b a b', P b → f b a = Except.ok b' → P b') :
    ∀ (l : List α) (b b' : β), P b → List.foldlM f b l = Except.ok b' → P b' := by
  intro l
  induction l with
  | nil =>
    intro b b' hb h
    rw [foldlM_nil_except] at h
    cases h
    exact hb
  | cons a t ih =>
    intro b b' hb h
    rw [foldlM_cons_except] at h
    cases hfa : f b a with
    | error e => rw [hfa] at h; exact Except.noConfusion h
    | ok b1 =>
      rw [hfa] at h
      exact ih b1 b' (hf b a b1 hb hfa) h

theorem except_foldlM_err {α β ε : Type} (f : β → α → Except ε β) (a : α)
    (ha : ∀ b, ∃ e, f b a = Except.error e) :
    ∀ (l : List α) (b : β), a ∈ l → ∃ e, List.foldlM f b l = Except.error e := by
  intro l
  induction l with
  | nil => intro b h; exact absurd h (List.not_mem_nil a)
  | cons x t ih =>
    intro b hmem
    rw [foldlM_cons_except]
    rcases List.mem_cons.mp hmem with heq | htail
    · subst heq
      obtain ⟨e, he⟩ := ha b
      exact ⟨e, by rw [he]; rfl⟩
    · cases hfx : f b x with
      | error e => exact ⟨e, rfl⟩
      | ok b1 =>
        obtain ⟨e, he⟩ := ih b1 htail
        exact ⟨e, he⟩

theorem lookup_setAssoc_self {α : Type} (l : List (String × α)) (k : String) (v : α) :
    (setAssoc l k v).lookup k = some v := by
  induction l with
  | nil => simp [setAssoc, List.lookup]
  | cons p t ih =>
    obtain ⟨k', v'⟩ := p
    by_cases h : k' = k
    · subst h
      simp [setAssoc, List.lookup]
    · have hb : (k' == k) = false := by simp [h]
      have hb' : (k == k') = false := by simp [Ne.symm h]
      simp [setAssoc, hb, List.lookup, hb', ih]

theorem lookup_setAssoc_ne {α : Type} (l : List (String × α)) (k x : String) (v : α)
    (h : x ≠ k) : (setAssoc l k v).lookup x = l.lookup x := by
  induction l with
  | nil =>
    have hb : (x == k) = false := by simp [h]
    simp [setAssoc, List.lookup, hb]
  | cons p t ih =>
    obtain ⟨k', v'⟩ := p
    by_cases hk : k' = k
    · subst hk
      have hb : (x == k') = false := by simp [h]
      simp [setAssoc, List.lookup, hb]
    · have hb : (k' == k) = false := by simp [hk]
      by_cases hx : x = k'
      · subst hx
        simp [setAssoc, hb, List.lookup]
      · have hb' : (x == k') = false := by simp [hx]
        simp [setAssoc, hb, List.lookup, hb', ih]

theorem map_fst_setAssoc_mem {α : Type} (l : List (String × α)) (k : String) (v : α)
    (h : k ∈ l.map Prod.fst) : (setAssoc l k v).map Prod.fst = l.map Prod.fst := by
  induction l with
  | nil => simp at h
  | cons p t ih =>
    obtain ⟨k', v'⟩ := p
    by_cases hk : k' = k
    · subst hk
      simp [setAssoc]
    · have hb : (k' == k) = false := by simp [hk]
      simp only [List.map_cons, List.mem_cons] at h
      rcases h with h | h
      · exact absurd h.symm hk
      · simp [setAssoc, hb, ih h]

theorem lookup_mem {β : Type} (l : List (String × β)) (k : String) (v : β)
    (h : l.lookup k = some v) : (k, v) ∈ l := by
  induction l with
  | nil => simp [List.lookup] at h
  | cons p t ih =>
    obtain ⟨k', v'⟩ := p
    by_cases hk : k = k'
    · subst hk
      simp [List.lookup] at h
      subst h
      exact List.mem_cons_self _ _
    · have hb : (k == k') = false := by simp [hk]
      simp [List.lookup, hb] at h
      exact List.mem_cons_of_mem _ (ih h)

theorem lookup_isSome_of_mem_keys {β : Type} (l : List (String × β)) (k : String)
    (h : k ∈ l.map Prod.fst) : ∃ v, l.lookup k = some v := by
  induction l with
  | nil => simp at h
  | cons p t ih =>
    obtain ⟨k', v'⟩ := p
    by_cases hk : k = k'
    · subst hk
      exact ⟨v', by simp [List.lookup]⟩
    · have hb : (k == k') = false := by simp [hk]
      simp only [List.map_cons, List.mem_cons] at h
      rcases h with h | h
      · exact absurd h hk
      · obtain ⟨v, hv⟩ := ih h
        exact ⟨v, by simp [List.lookup, hb, hv]⟩

theorem lookup_isSome_mapVal {γ : Type} (g : String → γ → γ) (l : List (String × γ))
    (k : String) :
    ((l.map (fun q => (q.1, g q.1 q.2))).lookup k).isSome = (l.lookup k).isSome := by
  induction l with
  | nil => rfl
  | cons p t ih =>
    obtain ⟨k', v⟩ := p
    by_cases hk : k = k'
    · subst hk
      simp [List.lookup]
    · have hb : (k == k') = false := by simp [hk]
      simp [List.lookup, hb, ih]

theorem map_fst_mapVal {γ : Type} (g : String → γ → γ) (l : List (String × γ)) :
    (l.map (fun q => (q.1, g q.1 q.2))).map Prod.fst = l.map Prod.fst := by
  induction l with
  | nil => rfl
  | cons p t ih => simp [ih]

/-! ## The schedule invariant through buildSchedule -/

theorem processField_ok_cases (cat : Catalog) (s : Schedule) (hourStr key : String)
    (v : JSValue) (s' : Schedule)
    (h : processField cat s hourStr key v = Except.ok s') :
    s' = s ∨ ∃ mapId tier slug, s' = setSlot s mapId tier hourStr slug := by
  unfold processField at h
  split at h
  · exact Or.inl (Except.ok.inj h).symm
  · split at h
    · exact Or.inl (Except.ok.inj h).symm
    · rename_i pfx tierRaw heq
      split at h
      · exact Except.noConfusion h
      · rename_i mapId hmap
        dsimp only at h
        split at h
        · exact Or.inl (Except.ok.inj h).symm
        · split at h
          · exact Or.inr ⟨mapId, jsToLower tierRaw, _, (Except.ok.inj h).symm⟩
          · exact Except.noConfusion h
      · dsimp only at h
        split at h
        · exact Or.inl (Except.ok.inj h).symm
        · split at h
          · exact Except.noConfusion h
          · exact Except.noConfusion h

theorem schedInv_setSlot (s : Schedule) (mapId tier hourStr slug : String)
    (h : schedInv s) : schedInv (setSlot s mapId tier hourStr slug) := by
  obtain ⟨hkeys, hbuckets⟩ := h
  constructor
  · rw [setSlot,
      map_fst_mapVal (fun k b => if k == mapId then updateTier b tier hourStr slug else b) s]
    exact hkeys
  · intro p hp
    rw [setSlot] at hp
    obtain ⟨q, hq, hpq⟩ := List.mem_map.mp hp
    subst hpq
    by_cases hqm : q.1 == mapId
    · simp only [hqm, if_true]
      have hb := hbuckets q hq
      rw [updateTier]
      constructor
      · rw [lookup_isSome_mapVal (fun k m => if k == tier then setAssoc m hourStr slug else m)]
        exact hb.1
      · rw [lookup_isSome_mapVal (fun k m => if k == tier then setAssoc m hourStr slug else m)]
        exact hb.2
    · simp only [hqm]
      simp only [Bool.false_eq_true, if_false]
      exact hbuckets q hq

theorem processEntry_inv (cat : Catalog) (s : Schedule) (entry : Entry) (s' : Schedule)
    (hs : schedInv s) (h : processEntry cat s entry = Except.ok s') : schedInv s' := by
  unfold processEntry at h
  split at h
  · rename_i n heq
    refine except_foldlM_inv ?_ entry s s' hs h
    intro b p b' hb hok
    rcases processField_ok_cases cat b n.toStr p.1 p.2 b' hok with heq' | ⟨m, t, sl, heq'⟩
    · exact heq' ▸ hb
    · exact heq' ▸ schedInv_setSlot b m t n.toStr sl hb
  · cases h
    exact hs

theorem buildSchedule_inv (rot : List Entry) (cat : Catalog) (sched : Schedule)
    (h : buildSchedule rot cat = Except.ok sched) : schedInv sched := by
  unfold buildSchedule at h
  refine except_foldlM_inv ?_ rot initialSchedule sched ?_ h
  · intro b e b' hb hok
    exact processEntry_inv cat b e b' hb hok
  · constructor
    · rfl
    · decide

/-- Claim C1: whenever buildSchedule succeeds, every location identifier
of the fixed prefix table is a key of the resulting schedule, and its
entry carries both a "major" and a "minor" bucket (possibly empty). -/
theorem claim_C1 (rot : List Entry) (cat : Catalog) (sched : Schedule)
    (h : buildSchedule rot cat = Except.ok sched) :
    ∀ loc ∈ prefixToMapId.map Prod.snd,
      ∃ b, sched.lookup loc = some b ∧
        (b.lookup "major").isSome = true ∧ (b.lookup "minor").isSome = true := by
  obtain ⟨hkeys, hbuckets⟩ := buildSchedule_inv rot cat sched h
  intro loc hloc
  rw [← hkeys] at hloc
  obtain ⟨b, hb⟩ := lookup_isSome_of_mem_keys sched loc hloc
  have hmem := lookup_mem sched loc b hb
  exact ⟨b, hb, (hbuckets (loc, b) hmem).1, (hbuckets (loc, b) hmem).2⟩

/-- Witness for C1 at the empty rotation and empty catalog. -/
theorem claim_C1_witness :
    ∃ b, initialSchedule.lookup "stella-montis" = some b ∧
      (b.lookup "major").isSome = true ∧ (b.lookup "minor").isSome = true :=
  claim_C1 [] [] initialSchedule rfl "stella-montis" (by decide)

/-- Claim C10: whenever buildSchedule succeeds, the key list of the
resulting schedule is exactly the five canonical location identifiers of
the fixed prefix table; no rotation entry can add a top-level key. -/
theorem claim_C10 (rot : List Entry) (cat : Catalog) (sched : Schedule)
    (h : buildSchedule rot cat = Except.ok sched) :
    sched.map Prod.fst =
      ["dam-battleground", "buried-city", "the-spaceport", "blue-gate", "stella-montis"] :=
  (buildSchedule_inv rot cat sched h).1

/-- Witness for C10 at the empty rotation and empty catalog. -/
theorem claim_C10_witness :
    initialSchedule.map Prod.fst =
      ["dam-battleground", "buried-city", "the-spaceport", "blue-gate", "stella-montis"] :=
  claim_C10 [] [] initialSchedule rfl

/-! ## Claim C2: the concrete buried-city minor slot -/

/-- Claim C2: for the single rotation entry with hour 5 and
buriedCityMinor "Ambush" and any catalog whose "ambush" key carries a
(non-empty) object definition, buildSchedule succeeds and the resulting
schedule has slot buried-city / minor / "5" equal to "ambush". -/
theorem claim_C2 (cat : Catalog) (d : List (String × JSValue))
    (hcat : lookupField cat "ambush" = JSValue.vobj d) (_hd : d ≠ []) :
    ∃ sched,
      buildSchedule
          [[("hour", JSValue.vnum (JSNum.mk false 5 [])),
            ("buriedCityMinor", JSValue.vstr "Ambush")]] cat = Except.ok sched ∧
      slotOf sched "buried-city" "minor" "5" = some "ambush" := by
  have ht : truthyProp cat "ambush" = true := by
    unfold truthyProp
    unfold lookupField at hcat
    revert hcat
    cases List.lookup "ambush" cat with
    | none =>
      intro hcat
      have hv : JSValue.vundefined = JSValue.vobj d := hcat
      exact JSValue.noConfusion hv
    | some v =>
      intro hcat
      have hv : v = JSValue.vobj d := hcat
      show truthy v = true
      rw [hv]
      rfl
  have hstep :
      buildSchedule
          [[("hour", JSValue.vnum (JSNum.mk false 5 [])),
            ("buriedCityMinor", JSValue.vstr "Ambush")]] cat =
        Except.bind
          (Except.bind
            (if truthyProp cat "ambush" = true then
              Except.ok (setSlot initialSchedule "buried-city" "minor" "5" "ambush")
            else Except.error (BuildError.missingEventType "Ambush" "ambush"))
            (fun s => Except.ok s))
          (fun s => Except.ok s) := rfl
  refine ⟨setSlot initialSchedule "buried-city" "minor" "5" "ambush", ?_, by decide⟩
  rw [hstep, if_pos ht]
  rfl

/-- Witness for C2 at a concrete one-entry catalog. -/
theorem claim_C2_witness :
    ∃ sched,
      buildSchedule
          [[("hour", JSValue.vnum (JSNum.mk false 5 [])),
            ("buriedCityMinor", JSValue.vstr "Ambush")]]
          [("ambush", JSValue.vobj [("name", JSValue.vstr "Ambush")])] = Except.ok sched ∧
      slotOf sched "buried-city" "minor" "5" = some "ambush" :=
  claim_C2 [("ambush", JSValue.vobj [("name", JSValue.vstr "Ambush")])]
    [("name", JSValue.vstr "Ambush")] rfl (by simp)

/-! ## Claim C4: which entries are skipped by the hour test -/

/-- Counterexample to C4 as stated: the entry with the non-integer hour
2.5 is not skipped — JavaScript only tests `typeof hour === "number"`, so
the entry's damMajor field lands in the schedule under the key "2.5" and
the result differs from the empty-rotation result. -/
theorem claim_C4_counterexample :
    isIntegerValue
        (lookupField
          [("hour", JSValue.vnum (JSNum.mk false 2 [5])),
           ("damMajor", JSValue.vstr "Ambush")] "hour") = false ∧
    buildSchedule
        [[("hour", JSValue.vnum (JSNum.mk false 2 [5])),
          ("damMajor", JSValue.vstr "Ambush")]]
        [("ambush", JSValue.vobj [("name", JSValue.vstr "Ambush")])] =
      Except.ok (setSlot initialSchedule "dam-battleground" "major" "2.5" "ambush") ∧
    slotOf (setSlot initialSchedule "dam-battleground" "major" "2.5" "ambush")
        "dam-battleground" "major" "2.5" = some "ambush" ∧
    slotOf initialSchedule "dam-battleground" "major" "2.5" = none :=
  ⟨rfl, rfl, by decide, by decide⟩

/-- Claim C4 (amended): buildSchedule skips a rotation entry entirely,
with no error, exactly when its hour field is not a number; an entry with
a non-integer numeric hour is processed like any other (its slots are
keyed by the decimal string of the hour). -/
theorem claim_C4_amended (entry : Entry) (rest : List Entry) (cat : Catalog)
    (h : typeofNumber (lookupField entry "hour") = false) :
    buildSchedule (entry :: rest) cat = buildSchedule rest cat := by
  have hpe : processEntry cat initialSchedule entry = Except.ok initialSchedule := by
    unfold processEntry
    cases hv : lookupField entry "hour" with
    | vnum n => rw [hv] at h; exact absurd h (by simp [typeofNumber])
    | vundefined => rfl
    | vnull => rfl
    | vbool b => rfl
    | vstr s => rfl
    | vobj f => rfl
  show List.foldlM (fun s e => processEntry cat s e) initialSchedule (entry :: rest) = _
  rw [foldlM_cons_except, hpe]
  rfl

/-- Witness for the amended C4: a string-valued hour is skipped. -/
theorem claim_C4_amended_witness :
    buildSchedule
        [[("hour", JSValue.vstr "3"), ("damMajor", JSValue.vstr "Ambush")]] [] =
      buildSchedule [] [] :=
  claim_C4_amended [("hour", JSValue.vstr "3"), ("damMajor", JSValue.vstr "Ambush")] [] [] rfl

/-! ## Claims C6 to C9: the per-field skip and error behaviour -/

theorem matchLocField_ne_hour (key : String) (pfx t : String)
    (hm : matchLocField key = some (pfx, t)) : (key == "hour") = false := by
  by_cases hk : key = "hour"
  · subst hk
    rw [show matchLocField "hour" = none from rfl] at hm
    exact Option.noConfusion hm
  · simp [hk]

/-- Claim C6: a matched field with a recognized prefix whose coerced
value is empty or case-insensitively "none" is skipped: the schedule is
returned unchanged and no error is raised.  In particular the entry with
hour 3 and damMajor "None" leaves the seeded schedule untouched. -/
theorem claim_C6 :
    (∀ (cat : Catalog) (sched : Schedule) (hourStr key : String) (v : JSValue)
        (pfx t mapId : String),
      matchLocField key = some (pfx, t) →
      prefixToMapId.lookup pfx = some mapId →
      (eventNameOf v = "" ∨ jsToLower (eventNameOf v) = "none") →
      processField cat sched hourStr key v = Except.ok sched) ∧
    buildSchedule
        [[("hour", JSValue.vnum (JSNum.mk false 3 [])), ("damMajor", JSValue.vstr "None")]]
        [] = Except.ok initialSchedule := by
  constructor
  · intro cat sched hourStr key v pfx t mapId hm hl hskip
    have hkey := matchLocField_ne_hour key pfx t hm
    have hr : readMapId pfx = TableRead.own mapId := by
      unfold readMapId
      rw [hl]
    have hcond : (eventNameOf v == "" || jsToLower (eventNameOf v) == "none") = true := by
      rcases hskip with h | h <;> simp [h]
    unfold processField
    simp only [hkey, hm, hr, hcond]
    simp
  · rfl

/-- Witness for C6 at the damMajor "None" field. -/
theorem claim_C6_witness :
    processField [] initialSchedule "3" "damMajor" (JSValue.vstr "None") =
      Except.ok initialSchedule :=
  claim_C6.1 [] initialSchedule "3" "damMajor" (JSValue.vstr "None") "dam" "Major"
    "dam-battleground" rfl rfl (Or.inr rfl)

/-- Counterexample to C7 as stated: the prefix "toString" is absent from
the fixed table, yet the entry with hour 1 and toStringMajor "None"
completes without any throw and the run produces its normal output —
`prefixToMapId["toString"]` is the truthy inherited
Object.prototype.toString, so the unknown-prefix check does not fire, and
the "None" value is then skipped. -/
theorem claim_C7_counterexample :
    prefixToMapId.lookup "toString" = none ∧
    matchLocField "toStringMajor" = some ("toString", "Major") ∧
    buildSchedule
        [[("hour", JSValue.vnum (JSNum.mk false 1 [])),
          ("toStringMajor", JSValue.vstr "None")]] [] = Except.ok initialSchedule :=
  ⟨rfl, rfl, rfl⟩

/-- Claim C7 (amended): a rotation entry with an integer hour and a
matched field whose prefix is absent from the fixed table and is not an
Object.prototype property name makes buildSchedule fail with an error, so
the run produces no output schedule.  (A prefix colliding with an
inherited Object.prototype member name passes the truthiness check
instead: no unknown-prefix violation is raised — such a field is skipped
when its value is empty or "none", and otherwise the run aborts with a
TypeError from indexing the schedule at the inherited function.) -/
theorem claim_C7_amended (rot : List Entry) (cat : Catalog) (entry : Entry) (key : String)
    (v : JSValue) (pfx t : String)
    (hmem : entry ∈ rot) (hf : (key, v) ∈ entry)
    (hhour : isIntegerValue (lookupField entry "hour") = true)
    (hm : matchLocField key = some (pfx, t))
    (hl : prefixToMapId.lookup pfx = none)
    (hnp : pfx ∉ objectProtoNames) :
    ∃ e, buildSchedule rot cat = Except.error e := by
  have hkey := matchLocField_ne_hour key pfx t hm
  have hr : readMapId pfx = TableRead.missing := by
    unfold readMapId
    rw [hl]
    exact if_neg hnp
  have hfield : ∀ (s : Schedule) (hs : String),
      processField cat s hs key v = Except.error (BuildError.unexpectedPrefix pfx) := by
    intro s hs
    unfold processField
    simp only [hkey, hm, hr]
    simp
  obtain ⟨n, hv⟩ : ∃ n, lookupField entry "hour" = JSValue.vnum n := by
    rcases hx : lookupField entry "hour" with _ | _ | b | n | s | f
    all_goals rw [hx] at hhour
    all_goals simp [isIntegerValue] at hhour
    exact ⟨n, rfl⟩
  have hent : ∀ s : Schedule, ∃ e, processEntry cat s entry = Except.error e := by
    intro s
    unfold processEntry
    rw [hv]
    exact except_foldlM_err (fun s p => processField cat s n.toStr p.1 p.2) (key, v)
      (fun b => ⟨_, hfield b n.toStr⟩) entry s hf
  unfold buildSchedule
  exact except_foldlM_err (fun s e => processEntry cat s e) entry hent rot initialSchedule hmem

/-- Witness for the amended C7: an unknownZone prefix aborts the build. -/
theorem claim_C7_amended_witness :
    ∃ e,
      buildSchedule
          [[("hour", JSValue.vnum (JSNum.mk false 1 [])),
            ("unknownZoneMajor", JSValue.vstr "X")]] [] = Except.error e :=
  claim_C7_amended _ [] [("hour", JSValue.vnum (JSNum.mk false 1 [])),
      ("unknownZoneMajor", JSValue.vstr "X")]
    "unknownZoneMajor" (JSValue.vstr "X") "unknownZone" "Major"
    (List.mem_singleton.mpr rfl)
    (List.mem_cons_of_mem _ (List.mem_singleton.mpr rfl)) rfl rfl rfl (by decide)

/-- Counterexample to C8 as stated: the value "Constructor" derives the
slug "constructor", which is absent from the (empty) local catalog, yet
no error is thrown — `eventTypes["constructor"]` is the truthy inherited
Object.prototype.constructor, so the field is silently scheduled. -/
theorem claim_C8_counterexample :
    List.lookup "constructor" ([] : Catalog) = none ∧
    slugify (eventNameOf (JSValue.vstr "Constructor")) = "constructor" ∧
    buildSchedule
        [[("hour", JSValue.vnum (JSNum.mk false 1 [])),
          ("damMajor", JSValue.vstr "Constructor")]] [] =
      Except.ok (setSlot initialSchedule "dam-battleground" "major" "1" "constructor") ∧
    slotOf (setSlot initialSchedule "dam-battleground" "major" "1" "constructor")
        "dam-battleground" "major" "1" = some "constructor" :=
  ⟨rfl, by decide, rfl, by decide⟩

/-- Claim C8 (amended): a matched field with a recognized prefix and a
non-empty, non-"none" value whose derived slug is absent from the catalog
and is not an Object.prototype property name makes the field throw the
missing-event contract violation (never a silent skip), and buildSchedule
on any rotation containing such an entry fails.  (An absent slug that
names an inherited Object.prototype member — among slugify outputs, only
"constructor" — reads as truthy and is silently scheduled instead.) -/
theorem claim_C8_amended (rot : List Entry) (cat : Catalog) (entry : Entry) (key : String)
    (v : JSValue) (pfx t mapId : String)
    (hmem : entry ∈ rot) (hf : (key, v) ∈ entry)
    (hhour : isIntegerValue (lookupField entry "hour") = true)
    (hm : matchLocField key = some (pfx, t))
    (hl : prefixToMapId.lookup pfx = some mapId)
    (hne : eventNameOf v ≠ "") (hnn : jsToLower (eventNameOf v) ≠ "none")
    (habs : cat.lookup (slugify (eventNameOf v)) = none)
    (hnp : slugify (eventNameOf v) ∉ objectProtoNames) :
    (∀ (s : Schedule) (hs : String),
      processField cat s hs key v =
        Except.error (BuildError.missingEventType (eventNameOf v) (slugify (eventNameOf v)))) ∧
    ∃ e, buildSchedule rot cat = Except.error e := by
  have hkey := matchLocField_ne_hour key pfx t hm
  have hcond : (eventNameOf v == "" || jsToLower (eventNameOf v) == "none") = false := by
    simp [hne, hnn]
  have hr : readMapId pfx = TableRead.own mapId := by
    unfold readMapId
    rw [hl]
  have hfalse : truthyProp cat (slugify (eventNameOf v)) = false := by
    unfold truthyProp
    rw [habs]
    exact decide_eq_false hnp
  have hfield : ∀ (s : Schedule) (hs : String),
      processField cat s hs key v =
        Except.error (BuildError.missingEventType (eventNameOf v) (slugify (eventNameOf v))) := by
    intro s hs
    unfold processField
    simp only [hkey, hm, hr, hcond, hfalse]
    simp
  refine ⟨hfield, ?_⟩
  obtain ⟨n, hv⟩ : ∃ n, lookupField entry "hour" = JSValue.vnum n := by
    rcases hx : lookupField entry "hour" with _ | _ | b | n | s | f
    all_goals rw [hx] at hhour
    all_goals simp [isIntegerValue] at hhour
    exact ⟨n, rfl⟩
  have hent : ∀ s : Schedule, ∃ e, processEntry cat s entry = Except.error e := by
    intro s
    unfold processEntry
    rw [hv]
    exact except_foldlM_err (fun s p => processField cat s n.toStr p.1 p.2) (key, v)
      (fun b => ⟨_, hfield b n.toStr⟩) entry s hf
  unfold buildSchedule
  exact except_foldlM_err (fun s e => processEntry cat s e) entry hent rot initialSchedule hmem

/-- Witness for the amended C8: an "Ambush" field against an empty
catalog throws. -/
theorem claim_C8_amended_witness :
    processField [] initialSchedule "1" "damMajor" (JSValue.vstr "Ambush") =
      Except.error (BuildError.missingEventType "Ambush" "ambush") := by
  have h :=
    (claim_C8_amended
        [[("hour", JSValue.vnum (JSNum.mk false 1 [])), ("damMajor", JSValue.vstr "Ambush")]]
        [] [("hour", JSValue.vnum (JSNum.mk false 1 [])), ("damMajor", JSValue.vstr "Ambush")]
        "damMajor" (JSValue.vstr "Ambush") "dam" "Major" "dam-battleground"
        (List.mem_singleton.mpr rfl)
        (List.mem_cons_of_mem _ (List.mem_singleton.mpr rfl)) rfl rfl rfl
        (by decide) (by decide) rfl (by decide)).1
  exact h initialSchedule "1"

/-- Claim C9: the catalog check of buildSchedule is a truthiness test,
not key membership: a slug that is present as a key but mapped to a falsy
value still triggers the missing-event contract violation, and any
rotation containing such a field fails. -/
theorem claim_C9 (rot : List Entry) (cat : Catalog) (entry : Entry) (key : String)
    (v : JSValue) (pfx t mapId : String) (fv : JSValue)
    (hmem : entry ∈ rot) (hf : (key, v) ∈ entry)
    (hhour : isIntegerValue (lookupField entry "hour") = true)
    (hm : matchLocField key = some (pfx, t))
    (hl : prefixToMapId.lookup pfx = some mapId)
    (hne : eventNameOf v ≠ "") (hnn : jsToLower (eventNameOf v) ≠ "none")
    (hpresent : cat.lookup (slugify (eventNameOf v)) = some fv)
    (hfalsy : truthy fv = false) :
    (∀ (s : Schedule) (hs : String),
      processField cat s hs key v =
        Except.error (BuildError.missingEventType (eventNameOf v) (slugify (eventNameOf v)))) ∧
    ∃ e, buildSchedule rot cat = Except.error e := by
  have hkey := matchLocField_ne_hour key pfx t hm
  have hcond : (eventNameOf v == "" || jsToLower (eventNameOf v) == "none") = false := by
    simp [hne, hnn]
  have hr : readMapId pfx = TableRead.own mapId := by
    unfold readMapId
    rw [hl]
  have hfalse : truthyProp cat (slugify (eventNameOf v)) = false := by
    unfold truthyProp
    rw [hpresent]
    exact hfalsy
  have hfield : ∀ (s : Schedule) (hs : String),
      processField cat s hs key v =
        Except.error (BuildError.missingEventType (eventNameOf v) (slugify (eventNameOf v))) := by
    intro s hs
    unfold processField
    simp only [hkey, hm, hr, hcond, hfalse]
    simp
  refine ⟨hfield, ?_⟩
  obtain ⟨n, hv⟩ : ∃ n, lookupField entry "hour" = JSValue.vnum n := by
    rcases hx : lookupField entry "hour" with _ | _ | b | n | s | f
    all_goals rw [hx] at hhour
    all_goals simp [isIntegerValue] at hhour
    exact ⟨n, rfl⟩
  have hent : ∀ s : Schedule, ∃ e, processEntry cat s entry = Except.error e := by
    intro s
    unfold processEntry
    rw [hv]
    exact except_foldlM_err (fun s p => processField cat s n.toStr p.1 p.2) (key, v)
      (fun b => ⟨_, hfield b n.toStr⟩) entry s hf
  unfold buildSchedule
  exact except_foldlM_err (fun s e => processEntry cat s e) entry hent rot initialSchedule hmem

/-- Witness for C9: a catalog with "ambush" mapped to null still throws. -/
theorem claim_C9_witness :
    processField [("ambush", JSValue.vnull)] initialSchedule "5" "buriedCityMinor"
        (JSValue.vstr "Ambush") =
      Except.error (BuildError.missingEventType "Ambush" "ambush") := by
  have h :=
    (claim_C9
        [[("hour", JSValue.vnum (JSNum.mk false 5 [])),
          ("buriedCityMinor", JSValue.vstr "Ambush")]]
        [("ambush", JSValue.vnull)]
        [("hour", JSValue.vnum (JSNum.mk false 5 [])),
         ("buriedCityMinor", JSValue.vstr "Ambush")]
        "buriedCityMinor" (JSValue.vstr "Ambush") "buriedCity" "Minor" "buried-city"
        JSValue.vnull
        (List.mem_singleton.mpr rfl)
        (List.mem_cons_of_mem _ (List.mem_singleton.mpr rfl)) rfl rfl rfl
        (by decide) (by decide) rfl rfl).1
  exact h initialSchedule "5"

/-! ## Claim C3: the localization merge -/

theorem merge_foldl_keys (remote : List (String × JSValue)) :
    ∀ (todo acc : List (String × JSValue)),
      (∀ p ∈ todo, p.1 ∈ acc.map Prod.fst) →
      (todo.foldl (mergeStep remote) acc).map Prod.fst = acc.map Prod.fst := by
  intro todo
  induction todo with
  | nil => intro acc _; rfl
  | cons p t ih =>
    intro acc hkeys
    rw [List.foldl_cons]
    cases hL : localizationsOf remote p.1 with
    | vobj loc =>
      have hstep : mergeStep remote acc p =
          setAssoc acc p.1
            (JSValue.vobj (setAssoc (spreadInto p.2) "localizations" (JSValue.vobj loc))) := by
        unfold mergeStep
        rw [hL]
      have hmem : p.1 ∈ acc.map Prod.fst := hkeys p (List.mem_cons_self p t)
      have hacc' : (mergeStep remote acc p).map Prod.fst = acc.map Prod.fst := by
        rw [hstep]
        exact map_fst_setAssoc_mem acc p.1 _ hmem
      rw [ih (mergeStep remote acc p) ?_, hacc']
      intro q hq
      rw [hacc']
      exact hkeys q (List.mem_cons_of_mem p hq)
    | vundefined =>
      have hstep : mergeStep remote acc p = acc := by unfold mergeStep; rw [hL]
      rw [hstep]
      exact ih acc (fun q hq => hkeys q (List.mem_cons_of_mem p hq))
    | vnull =>
      have hstep : mergeStep remote acc p = acc := by unfold mergeStep; rw [hL]
      rw [hstep]
      exact ih acc (fun q hq => hkeys q (List.mem_cons_of_mem p hq))
    | vbool b =>
      have hstep : mergeStep remote acc p = acc := by unfold mergeStep; rw [hL]
      rw [hstep]
      exact ih acc (fun q hq => hkeys q (List.mem_cons_of_mem p hq))
    | vnum n =>
      have hstep : mergeStep remote acc p = acc := by unfold mergeStep; rw [hL]
      rw [hstep]
      exact ih acc (fun q hq => hkeys q (List.mem_cons_of_mem p hq))
    | vstr s =>
      have hstep : mergeStep remote acc p = acc := by unfold mergeStep; rw [hL]
      rw [hstep]
      exact ih acc (fun q hq => hkeys q (List.mem_cons_of_mem p hq))

theorem merge_foldl_lookup_ne (remote : List (String × JSValue)) :
    ∀ (todo acc : List (String × JSValue)) (slug : String),
      (∀ p ∈ todo, p.1 ≠ slug) →
      (todo.foldl (mergeStep remote) acc).lookup slug = acc.lookup slug := by
  intro todo
  induction todo with
  | nil => intro acc slug _; rfl
  | cons p t ih =>
    intro acc slug hne
    rw [List.foldl_cons]
    have htail := fun q hq => hne q (List.mem_cons_of_mem p hq)
    have hhead : p.1 ≠ slug := hne p (List.mem_cons_self p t)
    rw [ih (mergeStep remote acc p) slug htail]
    cases hL : localizationsOf remote p.1 with
    | vobj loc =>
      have hstep : mergeStep remote acc p =
          setAssoc acc p.1
            (JSValue.vobj (setAssoc (spreadInto p.2) "localizations" (JSValue.vobj loc))) := by
        unfold mergeStep
        rw [hL]
      rw [hstep]
      exact lookup_setAssoc_ne acc p.1 slug _ (Ne.symm hhead)
    | vundefined => unfold mergeStep; rw [hL]
    | vnull => unfold mergeStep; rw [hL]
    | vbool b => unfold mergeStep; rw [hL]
    | vnum n => unfold mergeStep; rw [hL]
    | vstr s => unfold mergeStep; rw [hL]

theorem merge_foldl_lookup_notobj (remote : List (String × JSValue)) (slug : String)
    (hnotobj : ∀ loc, localizationsOf remote slug ≠ JSValue.vobj loc) :
    ∀ (todo acc : List (String × JSValue)),
      (todo.foldl (mergeStep remote) acc).lookup slug = acc.lookup slug := by
  intro todo
  induction todo with
  | nil => intro acc; rfl
  | cons p t ih =>
    intro acc
    rw [List.foldl_cons, ih (mergeStep remote acc p)]
    by_cases hps : p.1 = slug
    · cases hL : localizationsOf remote p.1 with
      | vobj loc => exact absurd (hps ▸ hL) (hnotobj loc)
      | vundefined => unfold mergeStep; rw [hL]
      | vnull => unfold mergeStep; rw [hL]
      | vbool b => unfold mergeStep; rw [hL]
      | vnum n => unfold mergeStep; rw [hL]
      | vstr s => unfold mergeStep; rw [hL]
    · cases hL : localizationsOf remote p.1 with
      | vobj loc =>
        have hstep : mergeStep remote acc p =
            setAssoc acc p.1
              (JSValue.vobj (setAssoc (spreadInto p.2) "localizations" (JSValue.vobj loc))) := by
          unfold mergeStep
          rw [hL]
        rw [hstep]
        exact lookup_setAssoc_ne acc p.1 slug _ (Ne.symm hps)
      | vundefined => unfold mergeStep; rw [hL]
      | vnull => unfold mergeStep; rw [hL]
      | vbool b => unfold mergeStep; rw [hL]
      | vnum n => unfold mergeStep; rw [hL]
      | vstr s => unfold mergeStep; rw [hL]

theorem merge_foldl_lookup_obj (remote : List (String × JSValue)) (slug : String)
    (config : JSValue) (loc : List (String × JSValue))
    (hL : localizationsOf remote slug = JSValue.vobj loc) :
    ∀ (todo acc : List (String × JSValue)),
      (todo.map Prod.fst).Nodup → (slug, config) ∈ todo →
      (todo.foldl (mergeStep remote) acc).lookup slug =
        some (JSValue.vobj (setAssoc (spreadInto config) "localizations" (JSValue.vobj loc))) := by
  intro todo
  induction todo with
  | nil => intro acc _ hmem; exact absurd hmem (List.not_mem_nil _)
  | cons p t ih =>
    intro acc hnodup hmem
    simp only [List.map_cons, List.nodup_cons] at hnodup
    obtain ⟨hnotin, hnodup'⟩ := hnodup
    rw [List.foldl_cons]
    rcases List.mem_cons.mp hmem with heq | htail
    · have hp1 : p.1 = slug := by rw [← heq]
      have hp2 : p.2 = config := by rw [← heq]
      have hstep : mergeStep remote acc p =
          setAssoc acc slug
            (JSValue.vobj (setAssoc (spreadInto config) "localizations" (JSValue.vobj loc))) := by
        unfold mergeStep
        rw [hp1, hp2, hL]
      have hne : ∀ q ∈ t, q.1 ≠ slug := by
        intro q hq hqs
        exact hnotin (hp1 ▸ hqs ▸ List.mem_map_of_mem Prod.fst hq)
      rw [merge_foldl_lookup_ne remote t (mergeStep remote acc p) slug hne, hstep]
      exact lookup_setAssoc_self acc slug _
    · exact ih (mergeStep remote acc p) hnodup' htail

/-- Claim C3: mergeEventLocalizations keeps exactly the local catalog's
keys (remote-only identifiers are ignored); an entry whose remote
counterpart carries a structured localizations object gets exactly that
object as its localizations field, all other fields unchanged, and an
entry without one is returned byte-for-byte unchanged. -/
theorem claim_C3 (localCat remote : List (String × JSValue))
    (hnodup : (localCat.map Prod.fst).Nodup) :
    (mergeEventLocalizations localCat remote).map Prod.fst = localCat.map Prod.fst ∧
    ∀ (slug : String) (fields : List (String × JSValue)),
      localCat.lookup slug = some (JSValue.vobj fields) →
      (mergeEventLocalizations localCat remote).lookup slug =
        some (match localizationsOf remote slug with
          | JSValue.vobj loc =>
              JSValue.vobj (setAssoc fields "localizations" (JSValue.vobj loc))
          | _ => JSValue.vobj fields) := by
  constructor
  · exact merge_foldl_keys remote localCat localCat
      (fun p hp => List.mem_map_of_mem Prod.fst hp)
  · intro slug fields hlk
    have hmem := lookup_mem localCat slug (JSValue.vobj fields) hlk
    cases hL : localizationsOf remote slug with
    | vobj loc =>
      rw [mergeEventLocalizations]
      exact merge_foldl_lookup_obj remote slug (JSValue.vobj fields) loc hL localCat localCat
        hnodup hmem
    | vundefined =>
      rw [mergeEventLocalizations,
        merge_foldl_lookup_notobj remote slug (by rw [hL]; intro loc h; exact JSValue.noConfusion h)]
      exact hlk
    | vnull =>
      rw [mergeEventLocalizations,
        merge_foldl_lookup_notobj remote slug (by rw [hL]; intro loc h; exact JSValue.noConfusion h)]
      exact hlk
    | vbool b =>
      rw [mergeEventLocalizations,
        merge_foldl_lookup_notobj remote slug (by rw [hL]; intro loc h; exact JSValue.noConfusion h)]
      exact hlk
    | vnum n =>
      rw [mergeEventLocalizations,
        merge_foldl_lookup_notobj remote slug (by rw [hL]; intro loc h; exact JSValue.noConfusion h)]
      exact hlk
    | vstr s =>
      rw [mergeEventLocalizations,
        merge_foldl_lookup_notobj remote slug (by rw [hL]; intro loc h; exact JSValue.noConfusion h)]
      exact hlk

/-- Witness for C3: a two-entry catalog where "ambush" gets its
localizations replaced wholesale and "hack" stays unchanged. -/
theorem claim_C3_witness :
    (mergeEventLocalizations
          [("ambush", JSValue.vobj
              [("name", JSValue.vstr "A"),
               ("localizations", JSValue.vobj [("en", JSValue.vstr "Old")])]),
           ("hack", JSValue.vobj [("name", JSValue.vstr "H")])]
          [("ambush", JSValue.vobj
              [("localizations", JSValue.vobj [("en", JSValue.vstr "Ambush")])])]).lookup
        "ambush" =
      some (JSValue.vobj
        [("name", JSValue.vstr "A"),
         ("localizations", JSValue.vobj [("en", JSValue.vstr "Ambush")])]) :=
  (claim_C3
      [("ambush", JSValue.vobj
          [("name", JSValue.vstr "A"),
           ("localizations", JSValue.vobj [("en", JSValue.vstr "Old")])]),
       ("hack", JSValue.vobj [("name", JSValue.vstr "H")])]
      [("ambush", JSValue.vobj
          [("localizations", JSValue.vobj [("en", JSValue.vstr "Ambush")])])]
      (by decide)).2 "ambush"
    [("name", JSValue.vstr "A"),
     ("localizations", JSValue.vobj [("en", JSValue.vstr "Old")])] rfl

/-! ## Claim C5: slugify is total and idempotent -/

theorem isSlugChar_hyphen : isSlugChar '-' = false := by decide

theorem slugTail_tail (c : Char) (cs : List Char) (h : slugTail (c :: cs) = true) :
    slugTail cs = true := by
  unfold slugTail at h
  by_cases h1 : isSlugChar c = true
  · rw [if_pos h1] at h
    exact h
  · rw [if_neg h1] at h
    by_cases h2 : (c == '-') = true
    · rw [if_pos h2] at h
      cases cs with
      | nil => rfl
      | cons d r =>
        rw [Bool.and_eq_true] at h
        exact h.2
    · rw [if_neg h2] at h
      exact absurd h (by simp)

theorem slugTail_chars (l : List Char) (h : slugTail l = true) :
    ∀ c ∈ l, c = '-' ∨ isSlugChar c = true := by
  induction l with
  | nil => intro c hc; exact absurd hc (List.not_mem_nil c)
  | cons x cs ih =>
    intro c hc
    rcases List.mem_cons.mp hc with heq | htail
    · subst heq
      unfold slugTail at h
      by_cases h1 : isSlugChar c = true
      · exact Or.inr h1
      · rw [if_neg h1] at h
        by_cases h2 : (c == '-') = true
        · exact Or.inl (by simpa using h2)
        · rw [if_neg h2] at h
          exact absurd h (by simp)
    · exact ih (slugTail_tail x cs h) c htail

theorem mem_collapseRuns (l : List Char) :
    ∀ (b : Bool) (c : Char), c ∈ collapseRuns b l → c = '-' ∨ isSlugChar c = true := by
  induction l with
  | nil => intro b c hc; exact absurd hc (List.not_mem_nil c)
  | cons x cs ih =>
    intro b c hc
    unfold collapseRuns at hc
    by_cases h1 : isSlugChar x = true
    · rw [if_pos h1] at hc
      rcases List.mem_cons.mp hc with heq | htail
      · exact Or.inr (heq ▸ h1)
      · exact ih false c htail
    · rw [if_neg h1] at hc
      cases b with
      | true => exact ih true c (by simpa using hc)
      | false =>
        simp only [Bool.false_eq_true, if_false] at hc
        rcases List.mem_cons.mp hc with heq | htail
        · exact Or.inl heq
        · exact ih true c htail

theorem collapseRuns_true_head (l : List Char) :
    ∀ (c : Char) (r : List Char), collapseRuns true l = c :: r → isSlugChar c = true := by
  induction l with
  | nil => intro c r h; exact absurd h (by simp [collapseRuns])
  | cons x cs ih =>
    intro c r h
    unfold collapseRuns at h
    by_cases h1 : isSlugChar x = true
    · rw [if_pos h1] at h
      cases h
      exact h1
    · rw [if_neg h1, if_pos rfl] at h
      exact ih c r h

theorem ndh_cons_of_ne (c : Char) (cs : List Char) (hc : (c == '-') = false)
    (h : noDoubleHyphen cs = true) : noDoubleHyphen (c :: cs) = true := by
  cases cs with
  | nil => rfl
  | cons d r =>
    unfold noDoubleHyphen
    rw [hc]
    simpa using h

theorem ndh_cons_of_head (c : Char) (cs : List Char)
    (hd : ∀ d r, cs = d :: r → (d == '-') = false)
    (h : noDoubleHyphen cs = true) : noDoubleHyphen (c :: cs) = true := by
  cases cs with
  | nil => rfl
  | cons d r =>
    unfold noDoubleHyphen
    rw [hd d r rfl]
    simpa using h

theorem ndh_tail (c : Char) (cs : List Char) (h : noDoubleHyphen (c :: cs) = true) :
    noDoubleHyphen cs = true := by
  cases cs with
  | nil => rfl
  | cons d r =>
    unfold noDoubleHyphen at h
    rw [Bool.and_eq_true] at h
    exact h.2

theorem ndh_collapse (l : List Char) : ∀ b, noDoubleHyphen (collapseRuns b l) = true := by
  induction l with
  | nil => intro b; rfl
  | cons x cs ih =>
    intro b
    unfold collapseRuns
    by_cases h1 : isSlugChar x = true
    · rw [if_pos h1]
      refine ndh_cons_of_ne x _ ?_ (ih false)
      have : x ≠ '-' := by
        intro hx
        rw [hx, isSlugChar_hyphen] at h1
        exact Bool.noConfusion h1
      simp [this]
    · rw [if_neg h1]
      cases b with
      | true => simpa using ih true
      | false =>
        simp only [Bool.false_eq_true, if_false]
        refine ndh_cons_of_head '-' _ ?_ (ih true)
        intro d r hdr
        have hds := collapseRuns_true_head cs d r hdr
        have : d ≠ '-' := by
          intro hd
          rw [hd, isSlugChar_hyphen] at hds
          exact Bool.noConfusion hds
        simp [this]

theorem ndh_dropWhile (p : Char → Bool) (l : List Char) (h : noDoubleHyphen l = true) :
    noDoubleHyphen (l.dropWhile p) = true := by
  induction l with
  | nil => exact h
  | cons c cs ih =>
    rw [List.dropWhile_cons]
    by_cases hp : p c = true
    · rw [if_pos hp]
      exact ih (ndh_tail c cs h)
    · rw [if_neg hp]
      exact h

theorem headNotHyphen_dropWhile (l : List Char) :
    headNotHyphen (l.dropWhile (fun c => c == '-')) = true := by
  induction l with
  | nil => rfl
  | cons c cs ih =>
    rw [List.dropWhile_cons]
    by_cases hp : (c == '-') = true
    · rw [if_pos hp]
      exact ih
    · rw [if_neg hp]
      unfold headNotHyphen
      simpa using hp

theorem dth_head (l : List Char) :
    ∀ d r, dropTrailingHyphens l = d :: r → ∃ r', l = d :: r' := by
  cases l with
  | nil => intro d r h; exact absurd h (by simp [dropTrailingHyphens])
  | cons c cs =>
    intro d r h
    unfold dropTrailingHyphens at h
    cases he : dropTrailingHyphens cs with
    | nil =>
      rw [he] at h
      by_cases hc : c = '-'
      · rw [if_pos hc] at h
        exact absurd h (by simp)
      · rw [if_neg hc] at h
        cases h
        exact ⟨cs, rfl⟩
    | cons e r2 =>
      rw [he] at h
      cases h
      exact ⟨cs, rfl⟩

theorem dth_mem (l : List Char) : ∀ c ∈ dropTrailingHyphens l, c ∈ l := by
  induction l with
  | nil => intro c hc; exact absurd hc (by simp [dropTrailingHyphens])
  | cons x cs ih =>
    intro c hc
    unfold dropTrailingHyphens at hc
    cases he : dropTrailingHyphens cs with
    | nil =>
      rw [he] at hc
      by_cases hx : x = '-'
      · rw [if_pos hx] at hc
        exact absurd hc (List.not_mem_nil c)
      · rw [if_neg hx] at hc
        rcases List.mem_cons.mp hc with heq | htail
        · exact heq ▸ List.mem_cons_self x cs
        · exact absurd htail (List.not_mem_nil c)
    | cons e r2 =>
      rw [he] at hc
      rcases List.mem_cons.mp hc with heq | htail
      · exact heq ▸ List.mem_cons_self x cs
      · exact List.mem_cons_of_mem x (ih c (he ▸ htail))

theorem ndh_dth (l : List Char) (h : noDoubleHyphen l = true) :
    noDoubleHyphen (dropTrailingHyphens l) = true := by
  induction l with
  | nil => rfl
  | cons c cs ih =>
    have ih' := ih (ndh_tail c cs h)
    unfold dropTrailingHyphens
    cases he : dropTrailingHyphens cs with
    | nil =>
      by_cases hc : c = '-'
      · rw [if_pos hc]; rfl
      · rw [if_neg hc]; rfl
    | cons d r =>
      obtain ⟨r', hcs⟩ := dth_head cs d r he
      have h1 : (!(c == '-' && d == '-')) = true := by
        subst hcs
        unfold noDoubleHyphen at h
        rw [Bool.and_eq_true] at h
        exact h.1
      have h2 : noDoubleHyphen (d :: r) = true := he ▸ ih'
      unfold noDoubleHyphen
      rw [Bool.and_eq_true]
      exact ⟨h1, h2⟩

theorem slugTail_dth (l : List Char) (hchars : ∀ c ∈ l, c = '-' ∨ isSlugChar c = true)
    (hndh : noDoubleHyphen l = true) : slugTail (dropTrailingHyphens l) = true := by
  induction l with
  | nil => rfl
  | cons c cs ih =>
    have ih' := ih (fun x hx => hchars x (List.mem_cons_of_mem c hx)) (ndh_tail c cs hndh)
    unfold dropTrailingHyphens
    cases he : dropTrailingHyphens cs with
    | nil =>
      by_cases hc : c = '-'
      · rw [if_pos hc]; rfl
      · rw [if_neg hc]
        have hslug : isSlugChar c = true := by
          rcases hchars c (List.mem_cons_self c cs) with h | h
          · exact absurd h hc
          · exact h
        simp [slugTail, hslug]
    | cons d r =>
      rw [he] at ih'
      obtain ⟨r', hcs⟩ := dth_head cs d r he
      by_cases hc : isSlugChar c = true
      · unfold slugTail
        rw [if_pos hc]
        exact ih'
      · have hch : c = '-' := by
          rcases hchars c (List.mem_cons_self c cs) with h | h
          · exact h
          · exact absurd h hc
        have hdslug : isSlugChar d = true := by
          have hdm : d ∈ cs := hcs ▸ List.mem_cons_self d r'
          rcases hchars d (List.mem_cons_of_mem c hdm) with h | h
          · subst hch
            subst hcs
            unfold noDoubleHyphen at hndh
            rw [Bool.and_eq_true] at hndh
            have := hndh.1
            rw [h] at this
            simp at this
          · exact h
        subst hch
        unfold slugTail
        rw [if_neg (by simp [isSlugChar_hyphen]), if_pos (by simp)]
        show (isSlugChar d && slugTail (d :: r)) = true
        rw [Bool.and_eq_true]
        exact ⟨hdslug, ih'⟩

theorem headNotHyphen_dth (l : List Char) (h : headNotHyphen l = true) :
    headNotHyphen (dropTrailingHyphens l) = true := by
  cases l with
  | nil => rfl
  | cons c cs =>
    unfold dropTrailingHyphens
    cases he : dropTrailingHyphens cs with
    | nil =>
      by_cases hc : c = '-'
      · rw [if_pos hc]; rfl
      · rw [if_neg hc]
        exact h
    | cons d r => exact h

theorem lowerChar_fix (c : Char) (h : c = '-' ∨ isSlugChar c = true) : lowerChar c = c := by
  rcases h with h | h
  · subst h
    decide
  · unfold isSlugChar at h
    rw [Bool.or_eq_true, decide_eq_true_eq, decide_eq_true_eq] at h
    unfold lowerChar
    rw [if_neg (by omega)]

theorem quote_fix (c : Char) (h : c = '-' ∨ isSlugChar c = true) : isQuoteChar c = false := by
  rcases h with h | h
  · subst h
    decide
  · unfold isSlugChar at h
    rw [Bool.or_eq_true, decide_eq_true_eq, decide_eq_true_eq] at h
    unfold isQuoteChar
    rw [Bool.or_eq_false_iff, beq_eq_false_iff_ne, beq_eq_false_iff_ne]
    omega

theorem map_lower_fix (l : List Char) (h : ∀ c ∈ l, c = '-' ∨ isSlugChar c = true) :
    l.map lowerChar = l := by
  induction l with
  | nil => rfl
  | cons c cs ih =>
    rw [List.map_cons, lowerChar_fix c (h c (List.mem_cons_self c cs)),
      ih (fun x hx => h x (List.mem_cons_of_mem c hx))]

theorem filter_quote_fix (l : List Char) (h : ∀ c ∈ l, c = '-' ∨ isSlugChar c = true) :
    l.filter (fun c => !isQuoteChar c) = l := by
  induction l with
  | nil => rfl
  | cons c cs ih =>
    rw [List.filter_cons]
    rw [quote_fix c (h c (List.mem_cons_self c cs))]
    simp only [Bool.not_false, if_true]
    rw [ih (fun x hx => h x (List.mem_cons_of_mem c hx))]

theorem collapse_true_of_head_slug (d : Char) (r : List Char) (h : isSlugChar d = true) :
    collapseRuns true (d :: r) = collapseRuns false (d :: r) := by
  unfold collapseRuns
  rw [if_pos h, if_pos h]

theorem collapse_fix (l : List Char) (h : slugTail l = true) :
    collapseRuns false l = l := by
  induction l with
  | nil => rfl
  | cons c cs ih =>
    have htail := slugTail_tail c cs h
    by_cases hc : isSlugChar c = true
    · unfold collapseRuns
      rw [if_pos hc, ih htail]
    · unfold slugTail at h
      rw [if_neg hc] at h
      by_cases h2 : (c == '-') = true
      · rw [if_pos h2] at h
        cases cs with
        | nil => exact absurd h (by simp)
        | cons d r =>
          rw [Bool.and_eq_true] at h
          unfold collapseRuns
          rw [if_neg hc]
          simp only [Bool.false_eq_true, if_false]
          rw [collapse_true_of_head_slug d r h.1, ih htail]
          have : c = '-' := by simpa using h2
          rw [this]
      · rw [if_neg h2] at h
        exact absurd h (by simp)

theorem dropWhile_fix (l : List Char) (h : headNotHyphen l = true) :
    l.dropWhile (fun c => c == '-') = l := by
  cases l with
  | nil => rfl
  | cons c cs =>
    unfold headNotHyphen at h
    rw [List.dropWhile_cons, if_neg (by simpa using h)]

theorem dth_fix (l : List Char) (h : slugTail l = true) :
    dropTrailingHyphens l = l := by
  induction l with
  | nil => rfl
  | cons c cs ih =>
    have htail := slugTail_tail c cs h
    unfold dropTrailingHyphens
    rw [ih htail]
    cases cs with
    | nil =>
      have hc : isSlugChar c = true := by
        unfold slugTail at h
        by_cases h1 : isSlugChar c = true
        · exact h1
        · rw [if_neg h1] at h
          by_cases h2 : (c == '-') = true
          · rw [if_pos h2] at h
            exact absurd h (by simp)
          · rw [if_neg h2] at h
            exact absurd h (by simp)
      have : c ≠ '-' := by
        intro hx
        rw [hx, isSlugChar_hyphen] at hc
        exact Bool.noConfusion hc
      rw [if_neg this]
    | cons d r => rfl

theorem slugCore_good (l : List Char) :
    slugTail (slugCore l) = true ∧ headNotHyphen (slugCore l) = true := by
  unfold slugCore
  have hchars1 : ∀ c ∈ collapseRuns false ((l.map lowerChar).filter (fun c => !isQuoteChar c)),
      c = '-' ∨ isSlugChar c = true :=
    fun c hc => mem_collapseRuns _ false c hc
  have hndh1 := ndh_collapse ((l.map lowerChar).filter (fun c => !isQuoteChar c)) false
  have hchars2 : ∀ c ∈ (collapseRuns false
        ((l.map lowerChar).filter (fun c => !isQuoteChar c))).dropWhile (fun c => c == '-'),
      c = '-' ∨ isSlugChar c = true :=
    fun c hc => hchars1 c ((List.dropWhile_sublist _).mem hc)
  have hndh2 := ndh_dropWhile (fun c => c == '-') _ hndh1
  have hhead2 := headNotHyphen_dropWhile
    (collapseRuns false ((l.map lowerChar).filter (fun c => !isQuoteChar c)))
  exact ⟨slugTail_dth _ hchars2 hndh2, headNotHyphen_dth _ hhead2⟩

theorem slugCore_fix (l : List Char) (h1 : slugTail l = true) (h2 : headNotHyphen l = true) :
    slugCore l = l := by
  have hchars := slugTail_chars l h1
  unfold slugCore
  rw [map_lower_fix l hchars, filter_quote_fix l hchars, collapse_fix l h1,
    dropWhile_fix l h2, dth_fix l h1]

/-- Claim C5: slugify is a total function on strings (it is a Lean
function, returning a string on every input) and is idempotent; on the
spec's examples it sends "Sea Dragon's Lair!" to "sea-dragons-lair" and
fixes "sea-dragons-lair". -/
theorem claim_C5 :
    (∀ s : String, slugify (slugify s) = slugify s) ∧
    slugify "Sea Dragon's Lair!" = "sea-dragons-lair" ∧
    slugify "sea-dragons-lair" = "sea-dragons-lair" := by
  refine ⟨?_, by decide, by decide⟩
  intro s
  show String.mk (slugCore (String.mk (slugCore s.data)).data) = String.mk (slugCore s.data)
  have hg := slugCore_good s.data
  show String.mk (slugCore (slugCore s.data)) = String.mk (slugCore s.data)
  rw [slugCore_fix (slugCore s.data) hg.1 hg.2]
